import Mathlib

/-!
Shallow embedding of the typing-session engine of `src/main.rs`
(`TypingSession` and its keystroke handling, plus the weakness
analysis pipelines).

Modelling conventions:
* `Instant` and `Duration` are modelled as natural numbers of whole
  milliseconds (the Rust code consumes every latency through
  `Duration::as_millis`); `Instant::now()` is passed in explicitly as the
  `now` argument of `handle_key`, and the second clock sample taken inside
  `update_key_stats` is identified with the same call instant.
* Rust `String`s are modelled as `List Char`; `str::chars().nth i` becomes
  `l[i]?` and `String::len()` (the UTF-8 byte count) becomes `rustByteLen`.
* `HashMap<char, KeyStat>` is modelled as an association list updated in
  place (`updateStats`); the grouping `HashMap`s of `analyze_weaknesses`
  are modelled by `groupsOf`, which builds, for every key, the list of its
  values in insertion order (the `HashMap` iteration order is arbitrary in
  Rust, so only the grouped contents are semantically relevant).
* `f64` averages and percentages are modelled in exact rational
  arithmetic (`ℚ`).
-/

/-- `ErrorType` of `src/main.rs` (the `Insertion`/`Omission` variants are
never constructed by the engine but are part of the type). -/
inductive ErrorType where
  | Substitution
  | Insertion
  | Omission
  | Repeat
deriving DecidableEq

/-- `ErrorEvent` of `src/main.rs`; timestamps in ms since session start. -/
structure ErrorEvent where
  error_type : ErrorType
  position : Nat
  expected_char : Option Char
  actual_char : Option Char
  timestamp : Nat
  correction_timestamp : Option Nat
  correction_latency : Option Nat
deriving DecidableEq

/-- `KeyStat` of `src/main.rs` (latencies in ms). -/
structure KeyStat where
  key : Char
  count : Nat
  total_latency : Nat
  error_count : Nat
  latencies : List Nat
  positions : List Nat
deriving DecidableEq

/-- `TypingRhythm` of `src/main.rs`. -/
structure TypingRhythm where
  timestamp : Nat
  latency : Nat
  position : Nat
  char_typed : Char
deriving DecidableEq

/-- `HesitationType` of `src/main.rs`. -/
inductive HesitationType where
  | LongPause
  | DoubleDigraph
  | Transition
  | Punctuation
  | CaseChange
  | NumberSymbol
deriving DecidableEq

/-- `HesitationPattern` of `src/main.rs` (the character windows are kept
as character lists). -/
structure HesitationPattern where
  position : Nat
  duration : Nat
  preceding_chars : List Char
  following_chars : List Char
  pattern_type : HesitationType
deriving DecidableEq

/-- The mutable state of `TypingSession` in `src/main.rs`. -/
structure TypingSession where
  target_text : List Char
  user_input : List Char
  current_position : Nat
  errors : List ErrorEvent
  key_stats : List (Char × KeyStat)
  session_start : Nat
  session_end : Option Nat
  last_keystroke : Option Nat
  has_error : Bool
  consecutive_errors : Nat
  is_frozen : Bool
  total_corrections : Nat
  typing_rhythm : List TypingRhythm
  hesitation_patterns : List HesitationPattern
  wpm_samples : List (Nat × ℚ)
deriving DecidableEq

/-- The backspace sentinel character `'\x08'` used by `handle_key`. -/
def backspaceChar : Char := '\x08'

/-- UTF-8 byte length of a string modelled as a character list; this is
what Rust's `String::len()` returns. -/
def rustByteLen (l : List Char) : Nat := (l.map Char.utf8Size).sum

/-- `TypingSession::new` (`session_start` is the construction instant). -/
def TypingSession.new (target : List Char) (t0 : Nat) : TypingSession where
  target_text := target
  user_input := []
  current_position := 0
  errors := []
  key_stats := []
  session_start := t0
  session_end := none
  last_keystroke := none
  has_error := false
  consecutive_errors := 0
  is_frozen := false
  total_corrections := 0
  typing_rhythm := []
  hesitation_patterns := []
  wpm_samples := []

/-- The latency computed at the top of `handle_key`: time since the last
keystroke, zero for the very first keystroke. -/
def TypingSession.latencyOf (s : TypingSession) (now : Nat) : Nat :=
  match s.last_keystroke with
  | some last => now - last
  | none => 0

/-- `TypingSession::calculate_wpm`, evaluated at the instant `now`
(Rust samples `Instant::now()` internally); exact rational arithmetic
models the `f64` computation.  Elapsed minutes are `(now - start)/60000`. -/
def TypingSession.calculate_wpm (s : TypingSession) (now : Nat) : ℚ :=
  let elapsed : ℚ := ((now - s.session_start : Nat) : ℚ) / 60000
  if elapsed = 0 then 0 else ((s.current_position : ℚ) / 5) / elapsed

/-- `TypingSession::calculate_accuracy`: `current_position /
user_input.len() * 100`, or `100` for empty input.  `user_input.len()` is
the UTF-8 byte length, hence `rustByteLen`. -/
def TypingSession.calculate_accuracy (s : TypingSession) : ℚ :=
  if s.user_input = [] then 100
  else ((s.current_position : ℚ) / (rustByteLen s.user_input : ℚ)) * 100

/-- `TypingSession::is_complete`: position has reached `target_text.len()`
(the byte length!) and no error is pending. -/
def TypingSession.is_complete (s : TypingSession) : Bool :=
  rustByteLen s.target_text ≤ s.current_position && !s.has_error

/-- Rust `char::is_ascii_punctuation`. -/
def isAsciiPunctuation (c : Char) : Bool :=
  (0x21 ≤ c.toNat && c.toNat ≤ 0x2F) ||
  (0x3A ≤ c.toNat && c.toNat ≤ 0x40) ||
  (0x5B ≤ c.toNat && c.toNat ≤ 0x60) ||
  (0x7B ≤ c.toNat && c.toNat ≤ 0x7E)

/-- Concrete stand-in for Rust's `char::is_uppercase` (the Unicode
uppercase property, whose table lives in the Rust standard library, not in
this repository), used only to keep the session machine computable.  It is
Lean's ASCII `Char.isUpper`, which agrees with the Unicode property on
every ASCII character; every concrete evaluation of it in this file is on
ASCII characters.  Theorems about the CaseChange branch are stated over an
arbitrary uppercase predicate (`detectHesitationTypeWith`), so they hold
for the true Unicode predicate as well. -/
def rustIsUppercase (c : Char) : Bool := c.isUpper

/-- The fixed symbol set `"!@#$%^&*()_+{}|:<>?"` of
`detect_hesitation_type` (braces written via escapes). -/
def numberSymbolChars : List Char :=
  ['!', '@', '#', '$', '%', '^', '&', '*', '(', ')', '_', '+',
   '\x7b', '\x7d', '|', ':', '<', '>', '?']

/-- The fixed common-digraph table of `detect_hesitation_type`, as
(previous character, typed character) pairs. -/
def commonDigraphs : List (Char × Char) :=
  [('t','h'), ('e','r'), ('o','n'), ('a','n'), ('r','e'),
   ('h','e'), ('i','n'), ('e','d'), ('n','d'), ('h','a')]

/-- `TypingSession::detect_hesitation_type` (the `_following` argument is
unused in the source and omitted), parameterized over the uppercase
predicate `isUpper` standing for the Rust standard library's Unicode
`char::is_uppercase`; every other guard (`is_ascii_punctuation`,
`is_ascii_digit`, the literal symbol set and digraph table) is ASCII by
definition and transcribed exactly. -/
def detectHesitationTypeWith (isUpper : Char → Bool) (key : Char)
    (latency_ms : Nat) (preceding : List Char) : HesitationType :=
  if 1000 < latency_ms then .LongPause
  else if isAsciiPunctuation key then .Punctuation
  else if key.isDigit || numberSymbolChars.contains key then .NumberSymbol
  else if isUpper key ≠
      ((preceding.getLast?.map isUpper).getD false) then .CaseChange
  else
    match preceding.getLast? with
    | some prev => if (prev, key) ∈ commonDigraphs then .DoubleDigraph
                   else .Transition
    | none => .Transition

/-- `TypingSession::detect_hesitation_type` with the computable ASCII
stand-in for the uppercase predicate; this instantiation is what the
session machine records in its hesitation log. -/
def detect_hesitation_type (key : Char) (latency_ms : Nat)
    (preceding : List Char) : HesitationType :=
  detectHesitationTypeWith rustIsUppercase key latency_ms preceding

/-- The `preceding` window computed in `update_key_stats`: the three
target characters before `current_position` when the position is at least
3, the empty string otherwise. -/
def precedingWindow (target : List Char) (pos : Nat) : List Char :=
  if 3 ≤ pos then (target.drop (pos - 3)).take 3 else []

/-- The `following` window computed in `update_key_stats`. -/
def followingWindow (target : List Char) (pos : Nat) : List Char :=
  (target.drop (pos + 1)).take 3

/-- A fresh `KeyStat` (the `or_insert` default of `update_key_stats`). -/
def newKeyStat (key : Char) : KeyStat where
  key := key
  count := 0
  total_latency := 0
  error_count := 0
  latencies := []
  positions := []

/-- One statistics update of `update_key_stats` on an existing record. -/
def bumpStat (st : KeyStat) (latencyMs pos : Nat) (hasErr : Bool) : KeyStat where
  key := st.key
  count := st.count + 1
  total_latency := st.total_latency + latencyMs
  error_count := if hasErr then st.error_count + 1 else st.error_count
  latencies := st.latencies ++ [latencyMs]
  positions := st.positions ++ [pos]

/-- `key_stats.entry(key).or_insert(default)` followed by the statistics
update, on the association-list model of the map. -/
def updateStats : List (Char × KeyStat) → Char → Nat → Nat → Bool →
    List (Char × KeyStat)
  | [], key, lat, pos, he => [(key, bumpStat (newKeyStat key) lat pos he)]
  | (k, st) :: rest, key, lat, pos, he =>
      if k = key then (k, bumpStat st lat pos he) :: rest
      else (k, st) :: updateStats rest key lat pos he

/-- `TypingSession::update_key_stats`: bump the per-key statistics, append
a rhythm record, detect a hesitation when the latency exceeds 500 ms, and
sample the WPM every 10th position. -/
def TypingSession.update_key_stats (s : TypingSession) (now : Nat)
    (key : Char) (latency : Nat) : TypingSession :=
  { s with
    key_stats := updateStats s.key_stats key latency s.current_position s.has_error
    typing_rhythm := s.typing_rhythm ++
      [⟨now - s.session_start, latency, s.current_position, key⟩]
    hesitation_patterns := s.hesitation_patterns ++
      (if 500 < latency then
        [⟨s.current_position, latency,
          precedingWindow s.target_text s.current_position,
          followingWindow s.target_text s.current_position,
          detect_hesitation_type key latency
            (precedingWindow s.target_text s.current_position)⟩]
       else [])
    wpm_samples := s.wpm_samples ++
      (if s.current_position % 10 = 0 ∧ 0 < s.current_position then
        [(now, s.calculate_wpm now)]
       else []) }

/-- `TypingSession::handle_backspace`: pop the last input character; in
error state decrement `consecutive_errors` (floor 0), clear `has_error`
when it reaches 0, unconditionally clear `is_frozen` and count a
correction; otherwise undo one correct character. -/
def TypingSession.handle_backspace (s : TypingSession) : TypingSession :=
  if s.user_input = [] then s
  else if s.has_error then
    let ce := if 0 < s.consecutive_errors then s.consecutive_errors - 1
              else s.consecutive_errors
    { s with
      user_input := s.user_input.dropLast
      consecutive_errors := ce
      has_error := if ce = 0 then false else s.has_error
      is_frozen := false
      total_corrections := s.total_corrections + 1 }
  else if 0 < s.current_position then
    { s with
      user_input := s.user_input.dropLast
      current_position := s.current_position - 1 }
  else { s with user_input := s.user_input.dropLast }

/-- `TypingSession::handle_error`: push an `ErrorEvent`, set `has_error`,
bump `consecutive_errors` and freeze at 10 consecutive errors. -/
def TypingSession.handle_error (s : TypingSession) (actual expected : Char)
    (now : Nat) : TypingSession :=
  let ev : ErrorEvent :=
    ⟨if actual = expected then .Repeat else .Substitution,
     s.current_position, some expected, some actual,
     now - s.session_start, none, none⟩
  if 10 ≤ s.consecutive_errors + 1 then
    { s with errors := s.errors ++ [ev], has_error := true,
             consecutive_errors := s.consecutive_errors + 1,
             is_frozen := true }
  else
    { s with errors := s.errors ++ [ev], has_error := true,
             consecutive_errors := s.consecutive_errors + 1 }

/-- The error-free correct-keystroke branch of `handle_key`: advance the
position and record the session end on reaching `target_text.len()`
(the UTF-8 byte length, exactly as in the source). -/
def TypingSession.advanceCorrect (s : TypingSession) (now : Nat) : TypingSession :=
  if rustByteLen s.target_text ≤ s.current_position + 1 then
    { s with current_position := s.current_position + 1,
             session_end := some now }
  else
    { s with current_position := s.current_position + 1 }

/-- The overtype-correction branch of `handle_key`: clear the error state,
advance, rebuild `user_input` as the first `current_position` target
characters (the `for i in 0..current_position` loop over
`target_chars.get(i)` is exactly `List.take`), and record completion. -/
def TypingSession.overtypeCorrect (s : TypingSession) (now : Nat) : TypingSession :=
  if rustByteLen s.target_text ≤ s.current_position + 1 then
    { s with has_error := false, consecutive_errors := 0,
             current_position := s.current_position + 1,
             user_input := s.target_text.take (s.current_position + 1),
             session_end := some now }
  else
    { s with has_error := false, consecutive_errors := 0,
             current_position := s.current_position + 1,
             user_input := s.target_text.take (s.current_position + 1) }

/-- `TypingSession::handle_key`, the sole mutation entry point.  Mirrors
the source: an early return when frozen (before the backspace branch), the
backspace branch, then append to `user_input`, update the statistics, and
dispatch on the expected character. -/
def TypingSession.handle_key (s : TypingSession) (now : Nat) (key : Char) :
    TypingSession :=
  if s.is_frozen then s
  else if key = backspaceChar then
    { s.handle_backspace with last_keystroke := some now }
  else
    let s2 := TypingSession.update_key_stats
      { s with user_input := s.user_input ++ [key] } now key (s.latencyOf now)
    let s3 :=
      match s.target_text[s.current_position]? with
      | some expected =>
          if key = expected then
            if s2.has_error = false then s2.advanceCorrect now
            else s2.overtypeCorrect now
          else s2.handle_error key expected now
      | none => s2
    { s3 with last_keystroke := some now }

/-- Run a session over a list of timestamped key events. -/
def runKeys (s : TypingSession) (evs : List (Nat × Char)) : TypingSession :=
  evs.foldl (fun t e => t.handle_key e.1 e.2) s

/-- A session state reachable from a freshly constructed session by some
sequence of `handle_key` calls. -/
def Reachable (s : TypingSession) : Prop :=
  ∃ target t0 evs, runKeys (TypingSession.new target t0) evs = s

/-- Sort a list in weakly descending order of a rational measure; models
the `sort_by(|a, b| b.avg.partial_cmp(&a.avg).unwrap())` calls of
`analyze_weaknesses` (all averages are finite, so `partial_cmp` is the
rational order). -/
def sortDescBy {α : Type} (f : α → ℚ) (l : List α) : List α :=
  List.insertionSort (fun a b => f b ≤ f a) l

/-- Group a keyed value list as the `HashMap<_, Vec<u64>>` accumulation
loops of `analyze_weaknesses` do: for every key, the list of its values in
insertion order (the key order of the resulting list is irrelevant, as the
Rust `HashMap` iterates in arbitrary order). -/
def groupsOf {κ : Type} [DecidableEq κ] (keyed : List (κ × Nat)) :
    List (κ × List Nat) :=
  (keyed.map Prod.fst).dedup.map
    (fun k => (k, (keyed.filter (fun e => decide (e.1 = k))).map Prod.snd))

/-- Average latency of a group, in exact rational arithmetic. -/
def avgQ (vs : List Nat) : ℚ := (vs.sum : ℚ) / (vs.length : ℚ)

/-- The keyed observations feeding the digraph map of
`analyze_weaknesses`: for every rhythm entry at a positive position whose
preceding target character exists, the pair (preceding target character,
typed character) with the entry's latency. -/
def keyedDigraphs (target : List Char) (rhythm : List TypingRhythm) :
    List ((Char × Char) × Nat) :=
  rhythm.filterMap (fun r =>
    if 0 < r.position then
      (target[r.position - 1]?).map (fun prev => ((prev, r.char_typed), r.latency))
    else none)

/-- The `slowest_digraphs` pipeline of `analyze_weaknesses`: keep groups
observed at least twice, average, sort descending, keep the top 10. -/
def slowest_digraphs (target : List Char) (rhythm : List TypingRhythm) :
    List ((Char × Char) × ℚ) :=
  let grouped := (groupsOf (keyedDigraphs target rhythm)).filter
    (fun g => decide (2 ≤ g.2.length))
  (sortDescBy (fun p => p.2) (grouped.map (fun g => (g.1, avgQ g.2)))).take 10

/-- The keyed observations feeding the transition map of
`analyze_weaknesses`: consecutive rhythm entries keyed by (previous typed
character, current typed character) with the current latency. -/
def keyedTransitions (rhythm : List TypingRhythm) :
    List ((Char × Char) × Nat) :=
  (rhythm.zip rhythm.tail).map
    (fun pr => ((pr.1.char_typed, pr.2.char_typed), pr.2.latency))

/-- The `problematic_transitions` pipeline of `analyze_weaknesses`: keep
groups observed at least twice, average, keep averages above 300 ms, sort
descending, keep the top 10. -/
def problematic_transitions (rhythm : List TypingRhythm) :
    List ((Char × Char) × ℚ) :=
  let grouped := (groupsOf (keyedTransitions rhythm)).filter
    (fun g => decide (2 ≤ g.2.length))
  let slow := (grouped.map (fun g => (g.1, avgQ g.2))).filter
    (fun p => decide ((300 : ℚ) < p.2))
  (sortDescBy (fun p => p.2) slow).take 10

/-- The state invariant maintained by `handle_key` over every reachable
session: consecutive errors stay below 10 while unfrozen, the error
counter is zero exactly when no error is pending, and the committed
position together with the pending error buffer never exceeds the typed
input. -/
def Good (s : TypingSession) : Prop :=
  (s.is_frozen = false → s.consecutive_errors ≤ 9) ∧
  (s.consecutive_errors = 0 ↔ s.has_error = false) ∧
  s.current_position + s.consecutive_errors ≤ s.user_input.length

/-- Ten wrong keystrokes (key `'x'` against the target `"ab"`), at
millisecond instants 0 through 9. -/
def tenWrongEvents : List (Nat × Char) :=
  [(0,'x'),(1,'x'),(2,'x'),(3,'x'),(4,'x'),(5,'x'),(6,'x'),(7,'x'),(8,'x'),(9,'x')]

/-- The session on target `"ab"` after ten consecutive wrong keystrokes:
a concrete frozen state. -/
def frozenAB : TypingSession :=
  runKeys (TypingSession.new ['a','b'] 0) tenWrongEvents

/-- Target `"ab"`, a single correct keystroke `'a'`. -/
def sessionCorrectOnly : TypingSession :=
  runKeys (TypingSession.new ['a','b'] 0) [(0,'a')]

/-- Target `"ab"`, a wrong keystroke `'x'` followed by the overtype
correction `'a'`. -/
def sessionWrongThenFixed : TypingSession :=
  runKeys (TypingSession.new ['a','b'] 0) [(0,'x'),(1,'a')]

/-- Target `"a"` typed to the end (position 1 = character count). -/
def sessionPastEnd : TypingSession :=
  runKeys (TypingSession.new ['a'] 0) [(0,'a')]

/-- Target `"é"` (one character, two UTF-8 bytes) typed correctly. -/
def sessionMultibyte : TypingSession :=
  runKeys (TypingSession.new ['é'] 0) [(0,'é')]

/-- A concrete rhythm log: the digraph (`'a'`,`'b'`) observed twice with
latency 500 ms against target `"ab"`. -/
def rhythmPairEx : List TypingRhythm :=
  [⟨0, 500, 1, 'b'⟩, ⟨1, 500, 1, 'b'⟩]

namespace TypingSession

@[simp] theorem update_key_stats_target_text (s : TypingSession) (now : Nat)
    (key : Char) (lat : Nat) :
    (s.update_key_stats now key lat).target_text = s.target_text := rfl

@[simp] theorem update_key_stats_user_input (s : TypingSession) (now : Nat)
    (key : Char) (lat : Nat) :
    (s.update_key_stats now key lat).user_input = s.user_input := rfl

@[simp] theorem update_key_stats_current_position (s : TypingSession) (now : Nat)
    (key : Char) (lat : Nat) :
    (s.update_key_stats now key lat).current_position = s.current_position := rfl

@[simp] theorem update_key_stats_has_error (s : TypingSession) (now : Nat)
    (key : Char) (lat : Nat) :
    (s.update_key_stats now key lat).has_error = s.has_error := rfl

@[simp] theorem update_key_stats_consecutive_errors (s : TypingSession) (now : Nat)
    (key : Char) (lat : Nat) :
    (s.update_key_stats now key lat).consecutive_errors = s.consecutive_errors := rfl

@[simp] theorem update_key_stats_is_frozen (s : TypingSession) (now : Nat)
    (key : Char) (lat : Nat) :
    (s.update_key_stats now key lat).is_frozen = s.is_frozen := rfl

@[simp] theorem update_key_stats_errors (s : TypingSession) (now : Nat)
    (key : Char) (lat : Nat) :
    (s.update_key_stats now key lat).errors = s.errors := rfl

@[simp] theorem handle_error_target_text (s : TypingSession) (a e : Char)
    (now : Nat) : (s.handle_error a e now).target_text = s.target_text := by
  simp only [handle_error]; split <;> rfl

@[simp] theorem handle_error_user_input (s : TypingSession) (a e : Char)
    (now : Nat) : (s.handle_error a e now).user_input = s.user_input := by
  simp only [handle_error]; split <;> rfl

@[simp] theorem handle_error_current_position (s : TypingSession) (a e : Char)
    (now : Nat) : (s.handle_error a e now).current_position = s.current_position := by
  simp only [handle_error]; split <;> rfl

@[simp] theorem handle_error_consecutive_errors (s : TypingSession) (a e : Char)
    (now : Nat) :
    (s.handle_error a e now).consecutive_errors = s.consecutive_errors + 1 := by
  simp only [handle_error]; split <;> rfl

@[simp] theorem handle_error_has_error (s : TypingSession) (a e : Char)
    (now : Nat) : (s.handle_error a e now).has_error = true := by
  simp only [handle_error]; split <;> rfl

theorem handle_error_is_frozen (s : TypingSession) (a e : Char) (now : Nat) :
    (s.handle_error a e now).is_frozen =
      (if 10 ≤ s.consecutive_errors + 1 then true else s.is_frozen) := by
  simp only [handle_error]; split <;> simp_all

@[simp] theorem advanceCorrect_target_text (s : TypingSession) (now : Nat) :
    (s.advanceCorrect now).target_text = s.target_text := by
  simp only [advanceCorrect]; split <;> rfl

@[simp] theorem advanceCorrect_user_input (s : TypingSession) (now : Nat) :
    (s.advanceCorrect now).user_input = s.user_input := by
  simp only [advanceCorrect]; split <;> rfl

@[simp] theorem advanceCorrect_current_position (s : TypingSession) (now : Nat) :
    (s.advanceCorrect now).current_position = s.current_position + 1 := by
  simp only [advanceCorrect]; split <;> rfl

@[simp] theorem advanceCorrect_has_error (s : TypingSession) (now : Nat) :
    (s.advanceCorrect now).has_error = s.has_error := by
  simp only [advanceCorrect]; split <;> rfl

@[simp] theorem advanceCorrect_consecutive_errors (s : TypingSession) (now : Nat) :
    (s.advanceCorrect now).consecutive_errors = s.consecutive_errors := by
  simp only [advanceCorrect]; split <;> rfl

@[simp] theorem advanceCorrect_is_frozen (s : TypingSession) (now : Nat) :
    (s.advanceCorrect now).is_frozen = s.is_frozen := by
  simp only [advanceCorrect]; split <;> rfl

@[simp] theorem advanceCorrect_errors (s : TypingSession) (now : Nat) :
    (s.advanceCorrect now).errors = s.errors := by
  simp only [advanceCorrect]; split <;> rfl

@[simp] theorem overtypeCorrect_target_text (s : TypingSession) (now : Nat) :
    (s.overtypeCorrect now).target_text = s.target_text := by
  simp only [overtypeCorrect]; split <;> rfl

@[simp] theorem overtypeCorrect_user_input (s : TypingSession) (now : Nat) :
    (s.overtypeCorrect now).user_input =
      s.target_text.take (s.current_position + 1) := by
  simp only [overtypeCorrect]; split <;> rfl

@[simp] theorem overtypeCorrect_current_position (s : TypingSession) (now : Nat) :
    (s.overtypeCorrect now).current_position = s.current_position + 1 := by
  simp only [overtypeCorrect]; split <;> rfl

@[simp] theorem overtypeCorrect_has_error (s : TypingSession) (now : Nat) :
    (s.overtypeCorrect now).has_error = false := by
  simp only [overtypeCorrect]; split <;> rfl

@[simp] theorem overtypeCorrect_consecutive_errors (s : TypingSession) (now : Nat) :
    (s.overtypeCorrect now).consecutive_errors = 0 := by
  simp only [overtypeCorrect]; split <;> rfl

@[simp] theorem overtypeCorrect_is_frozen (s : TypingSession) (now : Nat) :
    (s.overtypeCorrect now).is_frozen = s.is_frozen := by
  simp only [overtypeCorrect]; split <;> rfl

@[simp] theorem overtypeCorrect_errors (s : TypingSession) (now : Nat) :
    (s.overtypeCorrect now).errors = s.errors := by
  simp only [overtypeCorrect]; split <;> rfl

theorem handle_key_frozen (s : TypingSession) (now : Nat) (key : Char)
    (h : s.is_frozen = true) : s.handle_key now key = s := by
  simp [handle_key, h]

theorem handle_key_backspace (s : TypingSession) (now : Nat)
    (h : s.is_frozen = false) :
    s.handle_key now backspaceChar =
      { s.handle_backspace with last_keystroke := some now } := by
  simp [handle_key, h]

theorem handle_key_no_expected (s : TypingSession) (now : Nat) (key : Char)
    (hf : s.is_frozen = false) (hk : key ≠ backspaceChar)
    (hn : s.target_text[s.current_position]? = none) :
    s.handle_key now key =
      { TypingSession.update_key_stats { s with user_input := s.user_input ++ [key] }
          now key (s.latencyOf now) with last_keystroke := some now } := by
  simp [handle_key, hf, hk, hn]

theorem handle_key_correct_advance (s : TypingSession) (now : Nat) (key : Char)
    (hf : s.is_frozen = false) (hk : key ≠ backspaceChar)
    (hc : s.target_text[s.current_position]? = some key)
    (he : s.has_error = false) :
    s.handle_key now key =
      { (TypingSession.update_key_stats { s with user_input := s.user_input ++ [key] }
          now key (s.latencyOf now)).advanceCorrect now with
        last_keystroke := some now } := by
  simp [handle_key, hf, hk, hc, he]

theorem handle_key_overtype (s : TypingSession) (now : Nat) (key : Char)
    (hf : s.is_frozen = false) (hk : key ≠ backspaceChar)
    (hc : s.target_text[s.current_position]? = some key)
    (he : s.has_error = true) :
    s.handle_key now key =
      { (TypingSession.update_key_stats { s with user_input := s.user_input ++ [key] }
          now key (s.latencyOf now)).overtypeCorrect now with
        last_keystroke := some now } := by
  simp [handle_key, hf, hk, hc, he]

theorem handle_key_wrong (s : TypingSession) (now : Nat) (key c : Char)
    (hf : s.is_frozen = false) (hk : key ≠ backspaceChar)
    (hc : s.target_text[s.current_position]? = some c) (hne : key ≠ c) :
    s.handle_key now key =
      { (TypingSession.update_key_stats { s with user_input := s.user_input ++ [key] }
          now key (s.latencyOf now)).handle_error key c now with
        last_keystroke := some now } := by
  simp [handle_key, hf, hk, hc, hne]

end TypingSession

theorem length_le_rustByteLen (l : List Char) : l.length ≤ rustByteLen l := by
  induction l with
  | nil => simp [rustByteLen]
  | cons c t ih =>
      have := Char.utf8Size_pos c
      simp only [rustByteLen, List.map_cons, List.sum_cons, List.length_cons] at *
      omega

theorem rustByteLen_append (l₁ l₂ : List Char) :
    rustByteLen (l₁ ++ l₂) = rustByteLen l₁ + rustByteLen l₂ := by
  simp [rustByteLen]


theorem good_new (target : List Char) (t0 : Nat) :
    Good (TypingSession.new target t0) := by
  refine ⟨?_, ?_, ?_⟩ <;> simp [Good, TypingSession.new]

theorem good_handle_backspace (s : TypingSession) (h : Good s)
    (hf : s.is_frozen = false) : Good s.handle_backspace := by
  obtain ⟨h1, h2, h3⟩ := h
  by_cases hemp : s.user_input = []
  · unfold TypingSession.handle_backspace
    rw [if_pos hemp]
    exact ⟨h1, h2, h3⟩
  · have hlen : 0 < s.user_input.length := List.length_pos.mpr hemp
    by_cases herr : s.has_error = true
    · have hce : 0 < s.consecutive_errors := by
        by_contra h0
        have hz : s.consecutive_errors = 0 := by omega
        rw [h2.mp hz] at herr
        simp at herr
      have hres : s.handle_backspace = { s with
          user_input := s.user_input.dropLast,
          consecutive_errors := s.consecutive_errors - 1,
          has_error := if s.consecutive_errors - 1 = 0 then false else s.has_error,
          is_frozen := false,
          total_corrections := s.total_corrections + 1 } := by
        unfold TypingSession.handle_backspace
        rw [if_neg hemp, if_pos herr, if_pos hce]
      rw [hres]
      refine ⟨?_, ?_, ?_⟩
      · intro _
        have := h1 hf
        simp only []
        omega
      · simp only []
        by_cases hz : s.consecutive_errors - 1 = 0
        · simp [hz]
        · simp [hz, herr]
      · simp only [List.length_dropLast]
        omega
    · have herr' : s.has_error = false := by simpa using herr
      have hce0 : s.consecutive_errors = 0 := h2.mpr herr'
      by_cases hpos : 0 < s.current_position
      · have hres : s.handle_backspace = { s with
            user_input := s.user_input.dropLast,
            current_position := s.current_position - 1 } := by
          unfold TypingSession.handle_backspace
          rw [if_neg hemp, if_neg (by simp [herr']), if_pos hpos]
        rw [hres]
        refine ⟨fun _ => h1 hf, by simpa using h2, ?_⟩
        simp only [List.length_dropLast]
        omega
      · have hres : s.handle_backspace =
            { s with user_input := s.user_input.dropLast } := by
          unfold TypingSession.handle_backspace
          rw [if_neg hemp, if_neg (by simp [herr']), if_neg hpos]
        rw [hres]
        refine ⟨fun _ => h1 hf, by simpa using h2, ?_⟩
        simp only [List.length_dropLast]
        omega

theorem good_handle_key (s : TypingSession) (now : Nat) (key : Char)
    (h : Good s) : Good (s.handle_key now key) := by
  by_cases hf : s.is_frozen = true
  · rwa [s.handle_key_frozen now key hf]
  · replace hf : s.is_frozen = false := by simpa using hf
    by_cases hk : key = backspaceChar
    · subst hk
      rw [s.handle_key_backspace now hf]
      have hg := good_handle_backspace s h hf
      exact ⟨hg.1, hg.2.1, hg.2.2⟩
    · obtain ⟨h1, h2, h3⟩ := h
      match hc : s.target_text[s.current_position]? with
      | none =>
          rw [s.handle_key_no_expected now key hf hk hc]
          refine ⟨fun _ => h1 hf, h2, ?_⟩
          simp only [TypingSession.update_key_stats_user_input,
            TypingSession.update_key_stats_current_position,
            TypingSession.update_key_stats_consecutive_errors,
            List.length_append, List.length_cons, List.length_nil]
          omega
      | some c =>
          by_cases hkey : key = c
          · subst hkey
            by_cases herr : s.has_error = true
            · rw [s.handle_key_overtype now key hf hk hc herr]
              have hlt : s.current_position < s.target_text.length :=
                (List.getElem?_eq_some_iff.mp hc).1
              refine ⟨?_, ?_, ?_⟩
              · intro _; simp
              · simp
              · simp only [TypingSession.overtypeCorrect_user_input,
                  TypingSession.overtypeCorrect_current_position,
                  TypingSession.overtypeCorrect_consecutive_errors,
                  TypingSession.update_key_stats_target_text,
                  TypingSession.update_key_stats_current_position,
                  List.length_take]
                omega
            · have herr' : s.has_error = false := by simpa using herr
              rw [s.handle_key_correct_advance now key hf hk hc herr']
              have hce0 : s.consecutive_errors = 0 := h2.mpr herr'
              refine ⟨?_, ?_, ?_⟩
              · intro _; simp [hce0]
              · simp [hce0, herr']
              · simp only [TypingSession.advanceCorrect_user_input,
                  TypingSession.advanceCorrect_current_position,
                  TypingSession.advanceCorrect_consecutive_errors,
                  TypingSession.update_key_stats_user_input,
                  TypingSession.update_key_stats_current_position,
                  TypingSession.update_key_stats_consecutive_errors,
                  List.length_append, List.length_cons, List.length_nil]
                omega
          · rw [s.handle_key_wrong now key c hf hk hc hkey]
            refine ⟨?_, ?_, ?_⟩
            · intro hfz
              simp only [TypingSession.handle_error_is_frozen,
                TypingSession.update_key_stats_is_frozen,
                TypingSession.update_key_stats_consecutive_errors] at hfz
              simp only [TypingSession.handle_error_consecutive_errors,
                TypingSession.update_key_stats_consecutive_errors]
              by_cases h10 : 10 ≤ s.consecutive_errors + 1
              · rw [if_pos h10] at hfz
                exact absurd hfz (by simp)
              · omega
            · simp
            · simp only [TypingSession.handle_error_user_input,
                TypingSession.handle_error_current_position,
                TypingSession.handle_error_consecutive_errors,
                TypingSession.update_key_stats_user_input,
                TypingSession.update_key_stats_current_position,
                TypingSession.update_key_stats_consecutive_errors,
                List.length_append, List.length_cons, List.length_nil]
              omega

theorem good_runKeys (s : TypingSession) (evs : List (Nat × Char))
    (h : Good s) : Good (runKeys s evs) := by
  induction evs generalizing s with
  | nil => exact h
  | cons e rest ih => exact ih _ (good_handle_key s e.1 e.2 h)

theorem good_reachable (s : TypingSession) (h : Reachable s) : Good s := by
  obtain ⟨target, t0, evs, rfl⟩ := h
  exact good_runKeys _ evs (good_new target t0)

theorem runKeys_cons (s : TypingSession) (e : Nat × Char)
    (rest : List (Nat × Char)) :
    runKeys s (e :: rest) = runKeys (s.handle_key e.1 e.2) rest := rfl

theorem handle_key_wrong_fields (s : TypingSession) (now : Nat) (key c : Char)
    (hf : s.is_frozen = false) (hk : key ≠ backspaceChar)
    (hc : s.target_text[s.current_position]? = some c) (hne : key ≠ c) :
    (s.handle_key now key).target_text = s.target_text ∧
    (s.handle_key now key).current_position = s.current_position ∧
    (s.handle_key now key).consecutive_errors = s.consecutive_errors + 1 ∧
    (s.handle_key now key).is_frozen =
      (if 10 ≤ s.consecutive_errors + 1 then true else s.is_frozen) ∧
    (s.handle_key now key).user_input = s.user_input ++ [key] ∧
    (s.handle_key now key).has_error = true := by
  rw [s.handle_key_wrong now key c hf hk hc hne]
  refine ⟨?_, ?_, ?_, ?_, ?_, ?_⟩ <;>
    simp [TypingSession.handle_error_is_frozen]

theorem run_wrong_aux (evs : List (Nat × Char)) (s : TypingSession) (c : Char)
    (hc : s.target_text[s.current_position]? = some c)
    (hw : ∀ e ∈ evs, e.2 ≠ backspaceChar ∧ e.2 ≠ c)
    (hiff : s.is_frozen = true ↔ 10 ≤ s.consecutive_errors) :
    (runKeys s evs).target_text = s.target_text ∧
    (runKeys s evs).current_position = s.current_position ∧
    ((runKeys s evs).is_frozen = true ↔ 10 ≤ (runKeys s evs).consecutive_errors) ∧
    ((runKeys s evs).is_frozen = true ∨
      (runKeys s evs).consecutive_errors = s.consecutive_errors + evs.length) := by
  induction evs generalizing s with
  | nil => exact ⟨rfl, rfl, hiff, Or.inr rfl⟩
  | cons e rest ih =>
      obtain ⟨hbs, hnec⟩ := hw e (List.mem_cons_self e rest)
      rw [runKeys_cons]
      by_cases hf : s.is_frozen = true
      · rw [s.handle_key_frozen e.1 e.2 hf]
        obtain ⟨ht, hp, hi, hd⟩ :=
          ih s hc (fun x hx => hw x (List.mem_cons_of_mem e hx)) hiff
        refine ⟨ht, hp, hi, Or.inl ?_⟩
        rcases hd with hfz | hceq
        · exact hfz
        · have h10 : 10 ≤ s.consecutive_errors := hiff.mp hf
          exact hi.mpr (by rw [hceq]; omega)
      · replace hf : s.is_frozen = false := by simpa using hf
        obtain ⟨ht, hp, hce, hfz, _, _⟩ :=
          handle_key_wrong_fields s e.1 e.2 c hf hbs hc hnec
        have hct : (s.handle_key e.1 e.2).target_text[
            (s.handle_key e.1 e.2).current_position]? = some c := by
          rw [ht, hp]; exact hc
        have hiff2 : (s.handle_key e.1 e.2).is_frozen = true ↔
            10 ≤ (s.handle_key e.1 e.2).consecutive_errors := by
          rw [hfz, hce]
          by_cases h10 : 10 ≤ s.consecutive_errors + 1
          · simp [h10]
          · simp [h10, hf]
        obtain ⟨ht2, hp2, hi2, hd2⟩ := ih (s.handle_key e.1 e.2) hct
          (fun x hx => hw x (List.mem_cons_of_mem e hx)) hiff2
        refine ⟨by rw [ht2, ht], by rw [hp2, hp], hi2, ?_⟩
        rcases hd2 with hfz2 | hceq2
        · exact Or.inl hfz2
        · refine Or.inr ?_
          rw [hceq2, hce, List.length_cons]
          omega

/-- C10: once `is_frozen` is true it stays true forever: `handle_key`
returns before touching any state, so every subsequent call — for every
key, the backspace sentinel included — leaves the entire session state
(user input, position, counters, logs and the last-keystroke timestamp)
unchanged. -/
theorem c10_frozen_forever (s : TypingSession) (evs : List (Nat × Char))
    (h : s.is_frozen = true) : runKeys s evs = s := by
  induction evs with
  | nil => rfl
  | cons e rest ih => rw [runKeys_cons, s.handle_key_frozen e.1 e.2 h]; exact ih

/-- Witness for C10 on the concrete frozen session: a character key and a
backspace leave it untouched. -/
theorem c10_frozen_forever_witness :
    runKeys frozenAB [(11, 'a'), (12, backspaceChar)] = frozenAB :=
  c10_frozen_forever frozenAB [(11, 'a'), (12, backspaceChar)] (by decide)

/-- C1 (behaviour at the failing input): after ten wrong keystrokes on
target `"ab"` the session is frozen with `consecutive_errors = 10`; the
claimed unfreezing backspace is a complete no-op — `handle_key` returns
before its backspace branch — so the state stays frozen at 10 instead of
moving to ErrorBuffering(9). -/
theorem c1_frozen_backspace_noop :
    frozenAB.is_frozen = true ∧
    frozenAB.handle_key 10 backspaceChar = frozenAB ∧
    (frozenAB.handle_key 10 backspaceChar).is_frozen = true ∧
    (frozenAB.handle_key 10 backspaceChar).consecutive_errors = 10 := by
  have hfz : frozenAB.is_frozen = true := by decide
  have hid := frozenAB.handle_key_frozen 10 backspaceChar hfz
  refine ⟨hfz, hid, ?_, ?_⟩ <;> rw [hid]
  · exact hfz
  · decide

/-- C2: from any reachable unfrozen state with an expected character in
view, a run of ten wrong non-backspace keystrokes freezes the machine, and
along the whole run the state is frozen exactly when `consecutive_errors`
has reached 10 — so the keystroke on which the counter reaches 10 is the
one that sets `is_frozen`, and no earlier keystroke of the run does. -/
theorem c2_ten_wrong_keystrokes_freeze (s : TypingSession) (hs : Reachable s)
    (hf : s.is_frozen = false) (c : Char)
    (hc : s.target_text[s.current_position]? = some c)
    (evs : List (Nat × Char)) (hlen : evs.length = 10)
    (hw : ∀ e ∈ evs, e.2 ≠ backspaceChar ∧ e.2 ≠ c) :
    (runKeys s evs).is_frozen = true ∧
    ∀ n, ((runKeys s (evs.take n)).is_frozen = true ↔
      10 ≤ (runKeys s (evs.take n)).consecutive_errors) := by
  have hce9 : s.consecutive_errors ≤ 9 := (good_reachable s hs).1 hf
  have hiff : s.is_frozen = true ↔ 10 ≤ s.consecutive_errors := by
    rw [hf]; simp; omega
  constructor
  · obtain ⟨-, -, hi, hd⟩ := run_wrong_aux evs s c hc hw hiff
    rcases hd with hfz | hceq
    · exact hfz
    · exact hi.mpr (by rw [hceq, hlen]; omega)
  · intro n
    exact (run_wrong_aux (evs.take n) s c hc
      (fun x hx => hw x (List.take_subset n evs hx)) hiff).2.2.1

/-- Witness for C2: ten wrong keystrokes on a fresh session over `"ab"`
leave it frozen. -/
theorem c2_ten_wrong_keystrokes_freeze_witness :
    (runKeys (TypingSession.new ['a','b'] 0) tenWrongEvents).is_frozen = true :=
  (c2_ten_wrong_keystrokes_freeze (TypingSession.new ['a','b'] 0)
    ⟨['a','b'], 0, [], rfl⟩ rfl 'a' rfl tenWrongEvents rfl (by decide)).1

/-- C3 counterexample: the frozen session has `has_error = true` and the
expected character `'a'` in view, yet feeding exactly that character to
`handle_key` clears nothing — the call is a frozen no-op, `has_error`
stays true, the position does not advance and the counter stays at 10. -/
theorem c3_counterexample_frozen_overtype :
    frozenAB.has_error = true ∧
    frozenAB.target_text[frozenAB.current_position]? = some 'a' ∧
    (frozenAB.handle_key 10 'a').has_error = true ∧
    (frozenAB.handle_key 10 'a').current_position = frozenAB.current_position ∧
    (frozenAB.handle_key 10 'a').consecutive_errors = 10 := by
  have hfz : frozenAB.is_frozen = true := by decide
  have hid := frozenAB.handle_key_frozen 10 'a' hfz
  refine ⟨by decide, by decide, ?_, ?_, ?_⟩ <;> rw [hid] <;> decide

/-- C3 (amended with the proviso that the session is not frozen and the
key is not the backspace sentinel): typing the expected character while
`has_error` is set clears `has_error`, zeroes `consecutive_errors`,
advances the position by one and rebuilds `user_input` as exactly the
first `current_position` target characters. -/
theorem c3_overtype_correction (s : TypingSession) (now : Nat) (key : Char)
    (hf : s.is_frozen = false) (hk : key ≠ backspaceChar)
    (hc : s.target_text[s.current_position]? = some key)
    (he : s.has_error = true) :
    (s.handle_key now key).has_error = false ∧
    (s.handle_key now key).consecutive_errors = 0 ∧
    (s.handle_key now key).current_position = s.current_position + 1 ∧
    (s.handle_key now key).user_input =
      s.target_text.take (s.current_position + 1) := by
  rw [s.handle_key_overtype now key hf hk hc he]
  refine ⟨?_, ?_, ?_, ?_⟩ <;> simp

/-- Witness for C3 (amended): on target `"ab"` after a wrong `'x'`, typing
`'a'` clears the error state and truncates the input to `"a"`. -/
theorem c3_overtype_correction_witness :
    ((runKeys (TypingSession.new ['a','b'] 0) [(0,'x')]).handle_key 1 'a').has_error
        = false ∧
    ((runKeys (TypingSession.new ['a','b'] 0) [(0,'x')]).handle_key 1
        'a').consecutive_errors = 0 ∧
    ((runKeys (TypingSession.new ['a','b'] 0) [(0,'x')]).handle_key 1
        'a').current_position =
      (runKeys (TypingSession.new ['a','b'] 0) [(0,'x')]).current_position + 1 ∧
    ((runKeys (TypingSession.new ['a','b'] 0) [(0,'x')]).handle_key 1
        'a').user_input =
      (runKeys (TypingSession.new ['a','b'] 0) [(0,'x')]).target_text.take
        ((runKeys (TypingSession.new ['a','b'] 0) [(0,'x')]).current_position + 1) :=
  c3_overtype_correction (runKeys (TypingSession.new ['a','b'] 0) [(0,'x')])
    1 'a' (by decide) (by decide) (by decide) (by decide)

/-- C4: after any sequence of `handle_key` calls on a fresh session,
`consecutive_errors` is zero exactly when `has_error` is false. -/
theorem c4_consecutive_errors_iff_has_error (target : List Char) (t0 : Nat)
    (evs : List (Nat × Char)) :
    ((runKeys (TypingSession.new target t0) evs).consecutive_errors = 0 ↔
      (runKeys (TypingSession.new target t0) evs).has_error = false) :=
  (good_runKeys _ evs (good_new target t0)).2.1

/-- C5 counterexample: with target `"a"` fully typed (position 1 = the
character count), a further non-backspace key `'x'` records no ErrorEvent
at all and leaves `has_error` and `consecutive_errors` untouched — the
claim says such a key is recorded as an error exactly like a mismatch. -/
theorem c5_counterexample_past_end_key :
    sessionPastEnd.current_position = 1 ∧
    sessionPastEnd.target_text.length = 1 ∧
    sessionPastEnd.is_frozen = false ∧
    (sessionPastEnd.handle_key 1 'x').errors = [] ∧
    (sessionPastEnd.handle_key 1 'x').has_error = false ∧
    (sessionPastEnd.handle_key 1 'x').consecutive_errors = 0 := by
  refine ⟨by decide, by decide, by decide, ?_, by decide, by decide⟩
  decide

/-- C5 (amended): a non-backspace key arriving while `current_position`
is at or past the end of the target is appended to `user_input` (with the
key statistics and rhythm log updated), but no ErrorEvent is recorded and
`has_error`, `consecutive_errors` and the position are unchanged. -/
theorem c5_past_end_records_nothing (s : TypingSession) (now : Nat)
    (key : Char) (hf : s.is_frozen = false) (hk : key ≠ backspaceChar)
    (hn : s.target_text[s.current_position]? = none) :
    (s.handle_key now key).errors = s.errors ∧
    (s.handle_key now key).has_error = s.has_error ∧
    (s.handle_key now key).consecutive_errors = s.consecutive_errors ∧
    (s.handle_key now key).current_position = s.current_position ∧
    (s.handle_key now key).user_input = s.user_input ++ [key] := by
  rw [s.handle_key_no_expected now key hf hk hn]
  refine ⟨?_, ?_, ?_, ?_, ?_⟩ <;> simp

/-- Witness for C5 (amended) on the concrete completed session. -/
theorem c5_past_end_records_nothing_witness :
    (sessionPastEnd.handle_key 1 'x').errors = sessionPastEnd.errors ∧
    (sessionPastEnd.handle_key 1 'x').has_error = sessionPastEnd.has_error ∧
    (sessionPastEnd.handle_key 1 'x').consecutive_errors =
      sessionPastEnd.consecutive_errors ∧
    (sessionPastEnd.handle_key 1 'x').current_position =
      sessionPastEnd.current_position ∧
    (sessionPastEnd.handle_key 1 'x').user_input =
      sessionPastEnd.user_input ++ ['x'] :=
  c5_past_end_records_nothing sessionPastEnd 1 'x' (by decide) (by decide)
    (by decide)

/-- C6 (behaviour at the failing input): the target `"é"` has one
character but two UTF-8 bytes; after typing it correctly the position
equals the character count 1 with no pending error, yet the code compares
the position against the byte length 2, so no session end is recorded and
`is_complete` is false — completion is not marked at the character
count. -/
theorem c6_multibyte_never_completes :
    sessionMultibyte.current_position = 1 ∧
    sessionMultibyte.target_text.length = 1 ∧
    sessionMultibyte.has_error = false ∧
    rustByteLen sessionMultibyte.target_text = 2 ∧
    sessionMultibyte.is_complete = false ∧
    sessionMultibyte.session_end = none := by
  refine ⟨by decide, by decide, by decide, by decide, by decide, by decide⟩

/-- C7 counterexample: on target `"ab"`, the runs `'a'` and `'x','a'`
(one extra incorrect keystroke that is later corrected by overtyping) end
with user inputs of the same length — the corrected keystroke does NOT
enlarge the accuracy denominator — and both sessions report accuracy
exactly 100. -/
theorem c7_counterexample_corrected_keystroke :
    sessionWrongThenFixed.user_input.length = 1 ∧
    sessionCorrectOnly.user_input.length = 1 ∧
    rustByteLen sessionWrongThenFixed.user_input =
      rustByteLen sessionCorrectOnly.user_input ∧
    sessionWrongThenFixed.calculate_accuracy = 100 ∧
    sessionCorrectOnly.calculate_accuracy = 100 := by
  have hu1 : sessionWrongThenFixed.user_input = ['a'] := by decide
  have hp1 : sessionWrongThenFixed.current_position = 1 := by decide
  have hu2 : sessionCorrectOnly.user_input = ['a'] := by decide
  have hp2 : sessionCorrectOnly.current_position = 1 := by decide
  have hb : rustByteLen ['a'] = 1 := by decide
  refine ⟨by decide, by decide, by decide, ?_, ?_⟩
  · unfold TypingSession.calculate_accuracy
    rw [hu1, hp1, hb]
    norm_num
  · unfold TypingSession.calculate_accuracy
    rw [hu2, hp2, hb]
    norm_num

/-- C7 (amended): `calculate_accuracy` is exactly 100 on empty input and
otherwise `current_position / len(user_input) * 100`; an incorrect
keystroke enlarges the denominator at the moment it is typed, weakly
decreasing the result, but a keystroke corrected later does not persist:
overtype-correction rebuilds `user_input` as the committed target prefix,
discarding the error tail from the denominator. -/
theorem c7_accuracy_denominator (s : TypingSession) (hs : Reachable s)
    (hf : s.is_frozen = false) :
    (s.user_input = [] → s.calculate_accuracy = 100) ∧
    (s.user_input ≠ [] → s.calculate_accuracy =
      ((s.current_position : ℚ) / (rustByteLen s.user_input : ℚ)) * 100) ∧
    (∀ now key c, key ≠ backspaceChar →
      s.target_text[s.current_position]? = some c → key ≠ c →
      (s.handle_key now key).user_input.length = s.user_input.length + 1 ∧
      (s.handle_key now key).calculate_accuracy ≤ s.calculate_accuracy) ∧
    (∀ now key, key ≠ backspaceChar → s.has_error = true →
      s.target_text[s.current_position]? = some key →
      (s.handle_key now key).user_input =
        s.target_text.take (s.current_position + 1)) := by
  have hgood := good_reachable s hs
  refine ⟨?_, ?_, ?_, ?_⟩
  · intro h; simp [TypingSession.calculate_accuracy, h]
  · intro h; simp [TypingSession.calculate_accuracy, h]
  · intro now key c hk hc hne
    obtain ⟨-, hp, -, -, hu, -⟩ :=
      handle_key_wrong_fields s now key c hf hk hc hne
    constructor
    · rw [hu]; simp
    · by_cases hemp : s.user_input = []
      · have hpos0 : s.current_position = 0 := by
          have h3 := hgood.2.2
          rw [hemp] at h3
          simp at h3
          omega
        simp [TypingSession.calculate_accuracy, hu, hp, hemp, hpos0]
      · have hb : 0 < rustByteLen s.user_input :=
          lt_of_lt_of_le (List.length_pos.mpr hemp) (length_le_rustByteLen _)
        have hne2 : s.user_input ++ [key] ≠ [] := by simp
        simp only [TypingSession.calculate_accuracy, hu, hp,
          if_neg hemp, if_neg hne2, rustByteLen_append]
        have hbq : (0 : ℚ) < (rustByteLen s.user_input : ℚ) := by
          exact_mod_cast hb
        have hmono : (rustByteLen s.user_input : ℚ) ≤
            ((rustByteLen s.user_input + rustByteLen [key] : Nat) : ℚ) := by
          push_cast
          have : (0:ℚ) ≤ (rustByteLen [key] : ℚ) := by positivity
          linarith
        have hnum : (0:ℚ) ≤ (s.current_position : ℚ) := by positivity
        have hdiv : (s.current_position : ℚ) /
            ((rustByteLen s.user_input + rustByteLen [key] : Nat) : ℚ) ≤
            (s.current_position : ℚ) / (rustByteLen s.user_input : ℚ) := by
          gcongr
        have h100 : (0:ℚ) ≤ 100 := by norm_num
        exact mul_le_mul_of_nonneg_right hdiv h100
  · intro now key hk he hc
    rw [s.handle_key_overtype now key hf hk hc he]
    simp

/-- Witness for C7 (amended): an incorrect `'x'` typed into the concrete
corrected session grows the input length by one and weakly decreases the
accuracy. -/
theorem c7_accuracy_denominator_witness :
    (sessionWrongThenFixed.handle_key 2 'x').user_input.length =
      sessionWrongThenFixed.user_input.length + 1 ∧
    (sessionWrongThenFixed.handle_key 2 'x').calculate_accuracy ≤
      sessionWrongThenFixed.calculate_accuracy :=
  (c7_accuracy_denominator sessionWrongThenFixed
    ⟨['a','b'], 0, [(0,'x'),(1,'a')], rfl⟩ (by decide)).2.2.1 2 'x' 'b'
    (by decide) (by decide) (by decide)

theorem sortDescBy_sorted {α : Type} (f : α → ℚ) (l : List α) :
    List.Sorted (fun a b => f b ≤ f a) (sortDescBy f l) := by
  letI : IsTotal α (fun a b => f b ≤ f a) := ⟨fun a b => le_total (f b) (f a)⟩
  letI : IsTrans α (fun a b => f b ≤ f a) :=
    ⟨fun a b c h1 h2 => le_trans h2 h1⟩
  exact List.sorted_insertionSort _ l

theorem mem_sortDescBy {α : Type} (f : α → ℚ) (l : List α) (p : α)
    (h : p ∈ sortDescBy f l) : p ∈ l :=
  (List.perm_insertionSort _ l).mem_iff.mp h

theorem groupsOf_length {κ : Type} [DecidableEq κ] (keyed : List (κ × Nat))
    (g : κ × List Nat) (h : g ∈ groupsOf keyed) :
    g.2.length = (keyed.filter (fun e => decide (e.1 = g.1))).length := by
  unfold groupsOf at h
  obtain ⟨k, hk, hg⟩ := List.mem_map.mp h
  subst hg
  simp

theorem topTen_observed_twice {κ : Type} [DecidableEq κ]
    (keyed : List (κ × Nat)) (l : List (κ × ℚ)) (p : κ × ℚ)
    (hl : ∀ q ∈ l, ∃ g ∈ groupsOf keyed, 2 ≤ g.2.length ∧ q.1 = g.1)
    (hp : p ∈ (sortDescBy (fun x => x.2) l).take 10) :
    2 ≤ (keyed.filter (fun e => decide (e.1 = p.1))).length := by
  have hmem : p ∈ l :=
    mem_sortDescBy _ l p (List.take_subset 10 _ hp)
  obtain ⟨g, hg, hlen, hfst⟩ := hl p hmem
  rw [hfst, ← groupsOf_length keyed g hg]
  exact hlen

/-- C8: every entry of the slowest-digraph list comes from a pair observed
at least twice in the rhythm log, every entry of the
problematic-transition list comes from a consecutive pair observed at
least twice, and both lists are weakly descending in average latency and
hold at most 10 entries. -/
theorem c8_weakness_lists (target : List Char) (rhythm : List TypingRhythm) :
    ((∀ p ∈ slowest_digraphs target rhythm,
        2 ≤ ((keyedDigraphs target rhythm).filter
          (fun e => decide (e.1 = p.1))).length) ∧
      List.Sorted (fun a b : (Char × Char) × ℚ => b.2 ≤ a.2)
        (slowest_digraphs target rhythm) ∧
      (slowest_digraphs target rhythm).length ≤ 10) ∧
    ((∀ p ∈ problematic_transitions rhythm,
        2 ≤ ((keyedTransitions rhythm).filter
          (fun e => decide (e.1 = p.1))).length) ∧
      List.Sorted (fun a b : (Char × Char) × ℚ => b.2 ≤ a.2)
        (problematic_transitions rhythm) ∧
      (problematic_transitions rhythm).length ≤ 10) := by
  constructor
  · refine ⟨?_, ?_, ?_⟩
    · intro p hp
      unfold slowest_digraphs at hp
      refine topTen_observed_twice (keyedDigraphs target rhythm) _ p ?_ hp
      intro q hq
      obtain ⟨g, hg, hq2⟩ := List.mem_map.mp hq
      obtain ⟨hgmem, hglen⟩ := List.mem_filter.mp hg
      exact ⟨g, hgmem, by simpa using hglen, by rw [← hq2]⟩
    · unfold slowest_digraphs
      exact List.Pairwise.sublist (List.take_sublist 10 _)
        (sortDescBy_sorted _ _)
    · unfold slowest_digraphs
      exact List.length_take_le 10 _
  · refine ⟨?_, ?_, ?_⟩
    · intro p hp
      unfold problematic_transitions at hp
      refine topTen_observed_twice (keyedTransitions rhythm) _ p ?_ hp
      intro q hq
      obtain ⟨hq1, -⟩ := List.mem_filter.mp hq
      obtain ⟨g, hg, hq2⟩ := List.mem_map.mp hq1
      obtain ⟨hgmem, hglen⟩ := List.mem_filter.mp hg
      exact ⟨g, hgmem, by simpa using hglen, by rw [← hq2]⟩
    · unfold problematic_transitions
      exact List.Pairwise.sublist (List.take_sublist 10 _)
        (sortDescBy_sorted _ _)
    · unfold problematic_transitions
      exact List.length_take_le 10 _

/-- Witness for C8: on the concrete rhythm log the digraph (`'a'`,`'b'`)
appears in the slowest-digraph list and is indeed observed twice. -/
theorem c8_weakness_lists_witness :
    2 ≤ ((keyedDigraphs ['a','b'] rhythmPairEx).filter
      (fun e => decide (e.1 = (('a','b') : Char × Char)))).length :=
  (c8_weakness_lists ['a','b'] rhythmPairEx).1.1 (('a','b'), 500) (by
    simp [slowest_digraphs, keyedDigraphs, rhythmPairEx, groupsOf, sortDescBy,
      avgQ, List.insertionSort, List.orderedInsert]
    norm_num)

theorem precedingWindow_getLast (target : List Char) (pos : Nat)
    (hp : pos ≤ target.length) :
    (precedingWindow target pos).getLast? =
      (if 3 ≤ pos then target[pos - 1]? else none) := by
  unfold precedingWindow
  by_cases h3 : 3 ≤ pos
  · rw [if_pos h3, if_pos h3]
    have hlen : ((target.drop (pos - 3)).take 3).length = 3 := by
      simp only [List.length_take, List.length_drop]
      omega
    rw [List.getLast?_eq_getElem?, hlen]
    rw [List.getElem?_take, if_pos (by omega : (3:Nat) - 1 < 3),
      List.getElem?_drop]
    congr 1
    omega
  · rw [if_neg h3, if_neg h3]
    rfl

/-- C9 counterexample: typed key `'d'` with latency 600 ms at position 3 of
target `"Abcde"`: the character three positions back is the uppercase
`'A'`, so the claim demands CaseChange, but the code compares against the
last character of the 3-character window — the lowercase `'c'` one
position back — and classifies the hesitation as Transition. -/
theorem c9_counterexample_three_back :
    (['A','b','c','d','e'] : List Char)[3 - 3]? = some 'A' ∧
    rustIsUppercase 'd' ≠ rustIsUppercase 'A' ∧
    (500 < 600 ∧ 600 ≤ 1000) ∧
    isAsciiPunctuation 'd' = false ∧
    ('d'.isDigit || numberSymbolChars.contains 'd') = false ∧
    detect_hesitation_type 'd' 600 (precedingWindow ['A','b','c','d','e'] 3) =
      HesitationType.Transition := by
  refine ⟨by decide, by decide, by decide, by decide, by decide, by decide⟩

/-- C9 (amended): for a hesitation keystroke (latency in (500, 1000]) that
is not punctuation and not a digit/symbol, the classification is
CaseChange exactly when the uppercase-ness of the typed character differs
from that of the character ONE position back in the target (the last
character of the 3-character preceding window), the missing character
being treated as lowercase when `current_position < 3`.  Stated for every
uppercase predicate `u`, hence in particular for the Rust standard
library's Unicode `char::is_uppercase`. -/
theorem c9_case_change_iff (u : Char → Bool) (target : List Char)
    (pos : Nat) (key : Char)
    (lat : Nat) (h1 : 500 < lat) (h2 : lat ≤ 1000)
    (h3 : isAsciiPunctuation key = false)
    (h4 : (key.isDigit || numberSymbolChars.contains key) = false)
    (h5 : pos ≤ target.length) :
    (detectHesitationTypeWith u key lat (precedingWindow target pos) =
        HesitationType.CaseChange ↔
      u key ≠
        (((if 3 ≤ pos then target[pos - 1]? else none).map u).getD false)) := by
  have h4' : ¬(key.isDigit || numberSymbolChars.contains key) = true := by
    rw [h4]; simp
  unfold detectHesitationTypeWith
  rw [if_neg (by omega : ¬ 1000 < lat), if_neg (by simp [h3]),
    if_neg h4', precedingWindow_getLast target pos h5]
  by_cases hcond : u key ≠
      (((if 3 ≤ pos then target[pos - 1]? else none).map u).getD false)
  · rw [if_pos hcond]
    simp only [true_iff, iff_true]
    exact hcond
  · rw [if_neg hcond]
    constructor
    · intro h
      exfalso
      cases hl : (if 3 ≤ pos then target[pos - 1]? else none) with
      | none =>
          rw [hl] at h
          simp at h
      | some prev =>
          rw [hl] at h
          dsimp only at h
          split at h <;> simp at h
    · intro h
      exact absurd h hcond

/-- Witness for C9 (amended), instantiated at the concrete ASCII stand-in
predicate: `'D'` after the lowercase `'c'` (one back) is classified
CaseChange, matching the amended condition. -/
theorem c9_case_change_iff_witness :
    (detectHesitationTypeWith rustIsUppercase 'D' 600
        (precedingWindow ['a','b','c','D'] 3) = HesitationType.CaseChange ↔
      rustIsUppercase 'D' ≠
        (((if 3 ≤ 3 then (['a','b','c','D'] : List Char)[3 - 1]? else none).map
          rustIsUppercase).getD false)) :=
  c9_case_change_iff rustIsUppercase ['a','b','c','D'] 3 'D' 600 (by decide)
    (by decide) (by decide) (by decide) (by decide)
